import Mathlib

/-!
A shallow embedding of the sqlite-backed ledger class `BimiBase` from
`bimibase.py` of the bimiTool repository.

The four tables (`accounts`, `drinks`, `kings`, `transacts`) are modelled as
lists of rows kept in insertion order.  SQL `SELECT ... WHERE k=?` followed by
`fetchone` becomes `List.find?`, `UPDATE ... WHERE k=?` becomes a `List.map`
that rewrites every matching row, `DELETE ... WHERE` becomes `List.filter`,
and `INSERT` appends at the end of the list.  Python/sqlite integers are
modelled as `Int`; `datetime.now()` is passed in as an abstract tick of type
`Nat`.  Exceptions the Python code can raise on these paths (the `None + 1`
TypeError in `consume_drinks` when `transacts` is empty, the `nspdfek[0]`
IndexError in `set_drink` on an empty field list) are modelled as explicit
error statuses returned together with the unchanged data base.
-/

namespace BimiBase

/-- One row of the `drinks` table. -/
structure DrinkRow where
  did : Int
  name : String
  sales_price : Int
  purchase_price : Int
  deposit : Int
  bottles_full : Int
  bottles_empty : Int
  deleted : Bool
  kings : Bool
deriving Repr, DecidableEq

/-- One row of the `kings` table. -/
structure KingRow where
  aid : Int
  did : Int
  quaffed : Int
deriving Repr, DecidableEq

/-- One row of the `transacts` table. -/
structure TransRow where
  tid : Int
  aid : Int
  did : Int
  count : Int
  value : Int
  date : Nat
deriving Repr, DecidableEq

/-- The whole sqlite data base: the four tables, rows in insertion order. -/
structure DB where
  accounts : List (Int × String)
  drinks : List DrinkRow
  kings : List KingRow
  transacts : List TransRow
deriving Repr, DecidableEq

/-- `SELECT ... FROM drinks WHERE did=? ... fetchone()`. -/
def lookupDrink (db : DB) (d : Int) : Option DrinkRow :=
  db.drinks.find? (fun r => r.did == d)

/-- `SELECT MAX(tid) FROM transacts`: `none` models the NULL returned on an
empty table. -/
def maxTid? : List TransRow → Option Int
  | [] => none
  | r :: rs => some (match maxTid? rs with
      | none => r.tid
      | some m => max r.tid m)

/-- The transaction id the next `INSERT INTO transacts` receives:
`MAX(tid)+1`, or `1` when the table is empty. -/
def newTid (db : DB) : Int :=
  match maxTid? db.transacts with
  | none => 1
  | some m => m + 1

/-- `add_credit`: appends one transaction row `(tid, aid, 0, 1, credit, now)`
where `tid` is `MAX(tid)+1` on a non-empty table and `1` otherwise. -/
def add_credit (db : DB) (aid credit : Int) (now : Nat) : DB :=
  { db with transacts := db.transacts ++ [⟨newTid db, aid, 0, 1, credit, now⟩] }

/-- `SELECT MAX(did) FROM drinks`, used to model the rowid sqlite assigns to
an `INTEGER PRIMARY KEY` column inserted as NULL. -/
def maxDid? : List DrinkRow → Option Int
  | [] => none
  | r :: rs => some (match maxDid? rs with
      | none => r.did
      | some m => max r.did m)

/-- `add_drink` called with the documented seven-element field list
`[name, sales_price, purchase_price, deposit, bottles_full, bottles_empty, kings]`:
inserts a fresh row with `deleted = False` spliced in at position 7. -/
def add_drink (db : DB) (nm : String) (sp pp dep f e : Int) (k : Bool) : DB :=
  let d : Int := match maxDid? db.drinks with
    | none => 1
    | some m => m + 1
  { db with drinks := db.drinks ++ [⟨d, nm, sp, pp, dep, f, e, false, k⟩] }

/-- A dynamically typed sqlite value, as supplied in the positional
`nspdfek` field lists. -/
inductive Val where
  | s (v : String)
  | i (v : Int)
  | b (v : Bool)
deriving Repr, DecidableEq

def Val.asStr : Val → String
  | .s v => v
  | _ => ""

def Val.asInt : Val → Int
  | .i v => v
  | .b v => if v then 1 else 0
  | .s _ => 0

def Val.asBool : Val → Bool
  | .b v => v
  | .i n => n != 0
  | .s _ => false

/-- Outcome of `set_drink`: the update ran, the length check failed and the
call only logged, or `nspdfek[0]` raised an IndexError on an empty list. -/
inductive SetDrinkStatus where
  | updated
  | wrongCount
  | indexError
deriving Repr, DecidableEq

/-- `set_drink(drink_id, nspdfek)`: `nspdfek[0] = nspdfek[0]` raises an
IndexError on an empty list; a seven-element list updates every column of the
matching row; any other length only logs and leaves the table alone. -/
def set_drink (db : DB) (d : Int) (fields : List Val) : SetDrinkStatus × DB :=
  match fields with
  | [] => (.indexError, db)
  | f0 :: rest =>
    let fs := f0 :: rest
    if fs.length = 7 then
      (.updated,
        { db with drinks := db.drinks.map (fun r =>
            if r.did == d then
              { r with
                name := (fs.getD 0 (.i 0)).asStr
                sales_price := (fs.getD 1 (.i 0)).asInt
                purchase_price := (fs.getD 2 (.i 0)).asInt
                deposit := (fs.getD 3 (.i 0)).asInt
                bottles_full := (fs.getD 4 (.i 0)).asInt
                bottles_empty := (fs.getD 5 (.i 0)).asInt
                kings := (fs.getD 6 (.i 0)).asBool }
            else r) })
    else (.wrongCount, db)

/-- `del_drink`: soft delete, `UPDATE drinks SET deleted=1, kings=0 WHERE did=?`. -/
def del_drink (db : DB) (d : Int) : DB :=
  { db with drinks := db.drinks.map (fun r =>
      if r.did == d then { r with deleted := true, kings := false } else r) }

/-- `del_account`: deletes the account row, its transactions and its kings
rows; the `drinks` table is not touched. -/
def del_account (db : DB) (a : Int) : DB :=
  { db with
    accounts := db.accounts.filter (fun p => !(p.1 == a))
    transacts := db.transacts.filter (fun r => !(r.aid == a))
    kings := db.kings.filter (fun r => !(r.aid == a)) }

/-- The value stored for one key of the `drink_infos` dict built by
`consume_drinks`: coalesced amount plus the `(sales_price, bottles_full,
bottles_empty)` row fetched from `drinks`. -/
structure Info where
  amount : Int
  sales_price : Int
  bottles_full : Int
  bottles_empty : Int
deriving Repr, DecidableEq

/-- Adds `a` to the `amount` of the entry with key `d` (the in-place update
`drink_infos[item[0]]` performs on a duplicated drink id). -/
def bumpAmount : List (Int × Info) → Int → Int → List (Int × Info)
  | [], _, _ => []
  | (k, v) :: rest, d, a =>
    if k == d then (k, { v with amount := v.amount + a }) :: rest
    else (k, v) :: bumpAmount rest d a

/-- `item[0] in drink_infos`. -/
def containsKey (l : List (Int × Info)) (d : Int) : Bool :=
  l.any (fun p => p.1 == d)

/-- The validation loop of `consume_drinks`: walks the request items, fetches
each drink, and builds the insertion-ordered `drink_infos` dict, coalescing
duplicated drink ids by summing their amounts.  Returns `none` as soon as a
drink id is not found (the logged early `return`). -/
def gatherInfos (db : DB) : List (Int × Int) → List (Int × Info) → Option (List (Int × Info))
  | [], acc => some acc
  | (d, a) :: rest, acc =>
    match lookupDrink db d with
    | none => none
    | some r =>
      if containsKey acc d then gatherInfos db rest (bumpAmount acc d a)
      else gatherInfos db rest (acc ++ [(d, ⟨a, r.sales_price, r.bottles_full, r.bottles_empty⟩)])

/-- `UPDATE drinks SET bottles_full=?, bottles_empty=? WHERE did=?`. -/
def updateDrink (ds : List DrinkRow) (d f e : Int) : List DrinkRow :=
  ds.map (fun r =>
    if r.did == d then { r with bottles_full := f, bottles_empty := e } else r)

/-- The write loop of `consume_drinks`: per dict entry, one transaction row
and one inventory update.  `bottles_full` is clamped at `0` when the amount
exceeds the full bottles read during validation; `bottles_empty` always grows
by the full amount. -/
def applyInfos (db : DB) (aid : Int) (now : Nat) (tid : Int) : List (Int × Info) → DB
  | [] => db
  | (d, v) :: rest =>
    let db1 : DB :=
      { db with transacts := db.transacts ++ [⟨tid, aid, d, v.amount, -v.sales_price, now⟩] }
    let nf : Int := if v.bottles_full - v.amount < 0 then 0 else v.bottles_full - v.amount
    let db2 : DB := { db1 with drinks := updateDrink db1.drinks d nf (v.bottles_empty + v.amount) }
    applyInfos db2 aid now tid rest

/-- `SELECT quaffed FROM kings WHERE aid=? AND did=? ... fetchone()`. -/
def findKing (ks : List KingRow) (a d : Int) : Option Int :=
  (ks.find? (fun r => r.aid == a && r.did == d)).map (fun r => r.quaffed)

/-- `UPDATE kings SET quaffed=? WHERE aid=? AND did=?`. -/
def setKing (ks : List KingRow) (a d v : Int) : List KingRow :=
  ks.map (fun r =>
    if r.aid == a && r.did == d then { r with quaffed := v } else r)

/-- One step of `update_king`: add to the existing counter, or insert a fresh
`(aid, did, amount)` row. -/
def bumpKing (ks : List KingRow) (a d amt : Int) : List KingRow :=
  match findKing ks a d with
  | some q => setKing ks a d (q + amt)
  | none => ks ++ [⟨a, d, amt⟩]

/-- The loop of `update_king` over the raw, uncoalesced request items. -/
def updateKings (a : Int) : List KingRow → List (Int × Int) → List KingRow
  | ks, [] => ks
  | ks, (d, amt) :: rest => updateKings a (bumpKing ks a d amt) rest

/-- `update_king(account_id, drink_ids_amounts)`. -/
def update_king (db : DB) (aid : Int) (items : List (Int × Int)) : DB :=
  { db with kings := updateKings aid db.kings items }

/-- `sys.maxsize` on a 64-bit CPython, `2 ^ 63 - 1`. -/
def maxsize : Int := 9223372036854775807

/-- Outcome of `consume_drinks`: success, the logged not-found early return,
the `None + 1` TypeError on an empty transaction log, or the logged
`sys.maxsize` guard. -/
inductive ConsumeStatus where
  | ok
  | notFound
  | tidTypeError
  | tidOverflow
deriving Repr, DecidableEq

/-- `consume_drinks(account_id, drink_ids_amounts)`: validate and coalesce,
allocate `MAX(tid)+1`, write one transaction row and one inventory update per
distinct drink, then update the kings table from the raw item list.  All
error paths return before the first write, so they pair with the unchanged
data base. -/
def consume_drinks (db : DB) (aid : Int) (items : List (Int × Int)) (now : Nat) :
    ConsumeStatus × DB :=
  match gatherInfos db items [] with
  | none => (.notFound, db)
  | some infos =>
    match maxTid? db.transacts with
    | none => (.tidTypeError, db)
    | some m =>
      if m + 1 = maxsize then (.tidOverflow, db)
      else (.ok, update_king (applyInfos db aid now (m + 1) infos) aid items)

/-- The inventory-restoring loop of `undo_transaction`: per fetched entry
with a real drink id, re-read the drink row and move `count` bottles from
empty back to full.  `none` models the TypeError raised when the drink row is
missing. -/
def undoDrinks : List TransRow → List DrinkRow → Option (List DrinkRow)
  | [], ds => some ds
  | it :: rest, ds =>
    if it.did == 0 then undoDrinks rest ds
    else
      match ds.find? (fun r => r.did == it.did) with
      | none => none
      | some r =>
        undoDrinks rest (updateDrink ds it.did (r.bottles_full + it.count) (r.bottles_empty - it.count))

/-- The kings-restoring loop of `undo_transaction`: decrement the counter of
each entry's `(aid, did)` pair when it exists, skip it otherwise. -/
def undoKings : List TransRow → List KingRow → List KingRow
  | [], ks => ks
  | it :: rest, ks =>
    if it.did == 0 then undoKings rest ks
    else
      match findKing ks it.aid it.did with
      | none => undoKings rest ks
      | some q => undoKings rest (setKing ks it.aid it.did (q - it.count))

/-- `undo_transaction(transact_id)`: fetch all entries with the tid, reverse
the inventory and kings effects, then delete the entries. -/
def undo_transaction (db : DB) (t : Int) : Option DB :=
  let entries := db.transacts.filter (fun r => r.tid == t)
  match undoDrinks entries db.drinks with
  | none => none
  | some ds =>
    some { db with
      drinks := ds
      kings := undoKings entries db.kings
      transacts := db.transacts.filter (fun r => !(r.tid == t)) }

/-- Total amount requested for drink `d` in one `consume_drinks` item list;
the quantity the validation loop coalesces duplicated ids to. -/
def amountSum : List (Int × Int) → Int → Int
  | [], _ => 0
  | (d', a) :: rest, d => (if d' = d then a else 0) + amountSum rest d

/-- Every drink row has non-negative full and empty bottle counts. -/
def nonnegDrinks (db : DB) : Prop :=
  ∀ r ∈ db.drinks, 0 ≤ r.bottles_full ∧ 0 ≤ r.bottles_empty

/-- The value stored in the `drink_infos` dict under key `d`. -/
def findInfo? (l : List (Int × Info)) (d : Int) : Option Info :=
  (l.find? (fun p => p.1 == d)).map Prod.snd

/-! ### Lemmas about row updates and lookups -/

theorem find?_updateDrink_eq (ds : List DrinkRow) (d f e : Int) :
    (updateDrink ds d f e).find? (fun r => r.did == d)
      = (ds.find? (fun r => r.did == d)).map
          (fun r => { r with bottles_full := f, bottles_empty := e }) := by
  induction ds with
  | nil => rfl
  | cons r rs ih =>
    by_cases h : r.did = d
    · simp only [updateDrink, List.map_cons]
      rw [List.find?_cons_of_pos, List.find?_cons_of_pos]
      · simp [h]
      · simpa using h
      · simp [h]
    · simp only [updateDrink, List.map_cons]
      rw [List.find?_cons_of_neg, List.find?_cons_of_neg]
      · simpa [updateDrink] using ih
      · simpa using h
      · simp [h]

theorem find?_updateDrink_ne (ds : List DrinkRow) (d d' f e : Int) (h : d ≠ d') :
    (updateDrink ds d' f e).find? (fun r => r.did == d)
      = ds.find? (fun r => r.did == d) := by
  induction ds with
  | nil => rfl
  | cons r rs ih =>
    by_cases hd : r.did = d
    · have hr : r.did ≠ d' := by omega
      simp only [updateDrink, List.map_cons]
      rw [List.find?_cons_of_pos, List.find?_cons_of_pos]
      · simp [hr]
      · simpa using hd
      · simp [hr, hd, h]
    · simp only [updateDrink, List.map_cons]
      rw [List.find?_cons_of_neg, List.find?_cons_of_neg]
      · simpa [updateDrink] using ih
      · simpa using hd
      · by_cases hr : r.did = d'
        · simp [hr, Ne.symm h]
        · simp [hr, hd]

theorem maxTid?_le (l : List TransRow) (m : Int) (hl : maxTid? l = some m) :
    ∀ r ∈ l, r.tid ≤ m := by
  induction l generalizing m with
  | nil => simp
  | cons r rs ih =>
    intro x hx
    rcases List.mem_cons.1 hx with rfl | hx
    · cases hrs : maxTid? rs with
      | none => simp [maxTid?, hrs] at hl; omega
      | some k => simp [maxTid?, hrs] at hl; omega
    · cases hrs : maxTid? rs with
      | none =>
        cases rs with
        | nil => simp at hx
        | cons y ys => simp [maxTid?] at hrs
      | some k =>
        have := ih k hrs x hx
        simp [maxTid?, hrs] at hl
        omega

theorem findInfo?_cons (p : Int × Info) (l : List (Int × Info)) (d : Int) :
    findInfo? (p :: l) d = if p.1 = d then some p.2 else findInfo? l d := by
  by_cases h : p.1 = d
  · rw [findInfo?, List.find?_cons_of_pos]
    · simp [h]
    · simpa using h
  · rw [findInfo?, List.find?_cons_of_neg]
    · simp [h, findInfo?]
    · simpa using h

theorem containsKey_iff (l : List (Int × Info)) (d : Int) :
    containsKey l d = true ↔ ∃ v, findInfo? l d = some v := by
  induction l with
  | nil => simp [containsKey, findInfo?]
  | cons p rest ih =>
    by_cases h : p.1 = d
    · simp [containsKey, findInfo?_cons, h]
    · simp only [containsKey, List.any_cons] at *
      simp [findInfo?_cons, h, ih]

theorem findInfo?_bump_self (l : List (Int × Info)) (d a : Int) :
    findInfo? (bumpAmount l d a) d
      = (findInfo? l d).map (fun v => { v with amount := v.amount + a }) := by
  induction l with
  | nil => rfl
  | cons p rest ih =>
    obtain ⟨k, w⟩ := p
    by_cases h : k = d
    · simp [bumpAmount, h, findInfo?_cons]
    · simp [bumpAmount, h, findInfo?_cons, ih]

theorem findInfo?_bump_ne (l : List (Int × Info)) (d d' a : Int) (h : d ≠ d') :
    findInfo? (bumpAmount l d' a) d = findInfo? l d := by
  induction l with
  | nil => rfl
  | cons p rest ih =>
    obtain ⟨k, w⟩ := p
    by_cases hk : k = d'
    · simp [bumpAmount, hk, findInfo?_cons, Ne.symm h]
    · simp [bumpAmount, hk, findInfo?_cons, ih]

theorem bumpAmount_keys (l : List (Int × Info)) (d a : Int) :
    (bumpAmount l d a).map Prod.fst = l.map Prod.fst := by
  induction l with
  | nil => rfl
  | cons p rest ih =>
    obtain ⟨k, w⟩ := p
    by_cases hk : k = d
    · simp [bumpAmount, hk]
    · simp [bumpAmount, hk, ih]

theorem findInfo?_append_of_some (l l' : List (Int × Info)) (d : Int) (v : Info)
    (h : findInfo? l d = some v) : findInfo? (l ++ l') d = some v := by
  induction l with
  | nil => simp [findInfo?] at h
  | cons p rest ih =>
    by_cases hp : p.1 = d
    · simpa [findInfo?_cons, hp] using h
    · rw [findInfo?_cons, if_neg hp] at h
      simpa [findInfo?_cons, hp] using ih h

theorem findInfo?_append_single (l : List (Int × Info)) (p : Int × Info) (d : Int)
    (h : findInfo? l d = none) :
    findInfo? (l ++ [p]) d = if p.1 = d then some p.2 else none := by
  induction l with
  | nil => simp [findInfo?_cons, findInfo?]
  | cons q rest ih =>
    by_cases hq : q.1 = d
    · simp [findInfo?_cons, hq] at h
    · rw [findInfo?_cons, if_neg hq] at h
      simpa [findInfo?_cons, hq] using ih h

theorem findInfo?_eq_none_iff (l : List (Int × Info)) (d : Int) :
    findInfo? l d = none ↔ d ∉ l.map Prod.fst := by
  induction l with
  | nil => simp [findInfo?]
  | cons p rest ih =>
    by_cases hp : p.1 = d
    · simp [findInfo?_cons, hp]
    · simp [findInfo?_cons, hp, ih, Ne.symm hp]

theorem findInfo?_mem (l : List (Int × Info)) (d : Int) (v : Info)
    (h : findInfo? l d = some v) : (d, v) ∈ l := by
  rw [findInfo?] at h
  cases hf : l.find? (fun p => p.1 == d) with
  | none => rw [hf] at h; simp at h
  | some p =>
    rw [hf] at h
    have hm := List.mem_of_find?_eq_some hf
    have hp := List.find?_some hf
    simp at h hp
    obtain ⟨k, w⟩ := p
    simp at hp h
    subst hp
    subst h
    exact hm

theorem findInfo?_of_mem_nodup (l : List (Int × Info)) (d : Int) (v : Info)
    (hnd : (l.map Prod.fst).Nodup) (h : (d, v) ∈ l) : findInfo? l d = some v := by
  induction l with
  | nil => simp at h
  | cons p rest ih =>
    simp only [List.map_cons, List.nodup_cons] at hnd
    rcases List.mem_cons.1 h with rfl | h'
    · simp [findInfo?_cons]
    · have hne : p.1 ≠ d := by
        intro he
        exact hnd.1 (he ▸ (List.mem_map.2 ⟨(d, v), h', rfl⟩))
      rw [findInfo?_cons, if_neg hne]
      exact ih hnd.2 h'

theorem amountSum_cons (d' a d : Int) (rest : List (Int × Int)) :
    amountSum ((d', a) :: rest) d = (if d' = d then a else 0) + amountSum rest d := rfl

/-! ### Characterization of the validation loop -/

theorem gather_acc (db : DB) (items : List (Int × Int)) :
    ∀ acc res d v, gatherInfos db items acc = some res → findInfo? acc d = some v →
      findInfo? res d = some { v with amount := v.amount + amountSum items d } := by
  induction items with
  | nil =>
    intro acc res d v hg hf
    simp only [gatherInfos, Option.some.injEq] at hg
    subst hg
    simpa [amountSum] using hf
  | cons item rest ih =>
    rintro acc res d v hg hf
    obtain ⟨d0, a0⟩ := item
    cases hl : lookupDrink db d0 with
    | none => simp [gatherInfos, hl] at hg
    | some r0 =>
      simp only [gatherInfos, hl] at hg
      by_cases hc : containsKey acc d0
      · rw [if_pos hc] at hg
        by_cases hd : d0 = d
        · subst hd
          have hb : findInfo? (bumpAmount acc d0 a0) d0
              = some { v with amount := v.amount + a0 } := by
            rw [findInfo?_bump_self, hf]; rfl
          have := ih _ _ _ _ hg hb
          rw [this, amountSum_cons, if_pos rfl, add_assoc]
        · have hb : findInfo? (bumpAmount acc d0 a0) d = some v := by
            rw [findInfo?_bump_ne _ _ _ _ (Ne.symm hd)]; exact hf
          have := ih _ _ _ _ hg hb
          rw [this, amountSum_cons, if_neg hd, zero_add]
      · rw [if_neg hc] at hg
        by_cases hd : d0 = d
        · subst hd
          exfalso
          exact hc ((containsKey_iff acc d0).2 ⟨v, hf⟩)
        · have hb : findInfo? (acc ++ [(d0, ⟨a0, r0.sales_price, r0.bottles_full, r0.bottles_empty⟩)]) d
              = some v := findInfo?_append_of_some _ _ _ _ hf
          have := ih _ _ _ _ hg hb
          rw [this, amountSum_cons, if_neg hd, zero_add]

theorem gather_found (db : DB) (items : List (Int × Int)) :
    ∀ acc res d, gatherInfos db items acc = some res → findInfo? acc d = none →
      (∃ a, (d, a) ∈ items) →
      ∃ r, lookupDrink db d = some r ∧
        findInfo? res d
          = some ⟨amountSum items d, r.sales_price, r.bottles_full, r.bottles_empty⟩ := by
  induction items with
  | nil => rintro acc res d hg hf ⟨a, ha⟩; simp at ha
  | cons item rest ih =>
    rintro acc res d hg hf hmem
    obtain ⟨d0, a0⟩ := item
    cases hl : lookupDrink db d0 with
    | none => simp [gatherInfos, hl] at hg
    | some r0 =>
      simp only [gatherInfos, hl] at hg
      by_cases hd : d0 = d
      · subst hd
        have hc : containsKey acc d0 = false := by
          cases h : containsKey acc d0
          · rfl
          · obtain ⟨v, hv⟩ := (containsKey_iff acc d0).1 h
            rw [hv] at hf
            cases hf
        rw [hc, if_neg (by simp)] at hg
        refine ⟨r0, hl, ?_⟩
        have hb : findInfo? (acc ++ [(d0, ⟨a0, r0.sales_price, r0.bottles_full, r0.bottles_empty⟩)]) d0
            = some ⟨a0, r0.sales_price, r0.bottles_full, r0.bottles_empty⟩ := by
          rw [findInfo?_append_single _ _ _ hf]; simp
        have := gather_acc db rest _ _ _ _ hg hb
        rw [this, amountSum_cons, if_pos rfl]
      · have hmem' : ∃ a, (d, a) ∈ rest := by
          obtain ⟨a, ha⟩ := hmem
          rcases List.mem_cons.1 ha with he | h'
          · exact absurd (congrArg Prod.fst he).symm hd
          · exact ⟨a, h'⟩
        by_cases hc : containsKey acc d0
        · rw [if_pos hc] at hg
          have hb : findInfo? (bumpAmount acc d0 a0) d = none := by
            rw [findInfo?_bump_ne _ _ _ _ (Ne.symm hd)]; exact hf
          obtain ⟨r, hr, hres⟩ := ih _ _ _ hg hb hmem'
          refine ⟨r, hr, ?_⟩
          rw [hres, amountSum_cons, if_neg hd]
          simp
        · rw [if_neg hc] at hg
          have hb : findInfo? (acc ++ [(d0, ⟨a0, r0.sales_price, r0.bottles_full, r0.bottles_empty⟩)]) d
              = none := by
            rw [findInfo?_append_single _ _ _ hf]
            simp [hd]
          obtain ⟨r, hr, hres⟩ := ih _ _ _ hg hb hmem'
          refine ⟨r, hr, ?_⟩
          rw [hres, amountSum_cons, if_neg hd]
          simp

theorem gather_none (db : DB) (items : List (Int × Int)) (d a : Int)
    (hmem : (d, a) ∈ items) (hl : lookupDrink db d = none) :
    ∀ acc, gatherInfos db items acc = none := by
  induction items with
  | nil => simp at hmem
  | cons item rest ih =>
    intro acc
    obtain ⟨d0, a0⟩ := item
    rcases List.mem_cons.1 hmem with he | h'
    · have h1 : d = d0 := congrArg Prod.fst he
      subst h1
      simp [gatherInfos, hl]
    · cases hl0 : lookupDrink db d0 with
      | none => simp [gatherInfos, hl0]
      | some r0 =>
        simp only [gatherInfos, hl0]
        by_cases hc : containsKey acc d0
        · rw [if_pos hc]; exact ih h' _
        · rw [if_neg hc]; exact ih h' _

theorem gather_nodup (db : DB) (items : List (Int × Int)) :
    ∀ acc res, gatherInfos db items acc = some res → (acc.map Prod.fst).Nodup →
      (res.map Prod.fst).Nodup := by
  induction items with
  | nil =>
    intro acc res hg hnd
    simp only [gatherInfos, Option.some.injEq] at hg
    subst hg; exact hnd
  | cons item rest ih =>
    intro acc res hg hnd
    obtain ⟨d0, a0⟩ := item
    cases hl : lookupDrink db d0 with
    | none => simp [gatherInfos, hl] at hg
    | some r0 =>
      simp only [gatherInfos, hl] at hg
      by_cases hc : containsKey acc d0
      · rw [if_pos hc] at hg
        exact ih _ _ hg (by rw [bumpAmount_keys]; exact hnd)
      · rw [if_neg hc] at hg
        refine ih _ _ hg ?_
        rw [List.map_append]
        simp only [List.map_cons, List.map_nil]
        rw [List.nodup_append]
        refine ⟨hnd, List.nodup_singleton _, ?_⟩
        intro k hk hk'
        simp at hk'
        subst hk'
        have : findInfo? acc k ≠ none := by
          intro hno
          rw [findInfo?_eq_none_iff] at hno
          exact hno hk
        rcases ho : findInfo? acc k with _ | v
        · exact this ho
        · exact absurd ((containsKey_iff acc _).2 ⟨v, ho⟩) hc

theorem gather_keys_sub (db : DB) (items : List (Int × Int)) :
    ∀ acc res k, gatherInfos db items acc = some res → k ∈ res.map Prod.fst →
      k ∈ acc.map Prod.fst ∨ ∃ a, (k, a) ∈ items := by
  induction items with
  | nil =>
    intro acc res k hg hk
    simp only [gatherInfos, Option.some.injEq] at hg
    subst hg; exact Or.inl hk
  | cons item rest ih =>
    intro acc res k hg hk
    obtain ⟨d0, a0⟩ := item
    cases hl : lookupDrink db d0 with
    | none => simp [gatherInfos, hl] at hg
    | some r0 =>
      simp only [gatherInfos, hl] at hg
      by_cases hc : containsKey acc d0
      · rw [if_pos hc] at hg
        rcases ih _ _ _ hg hk with h | ⟨a, ha⟩
        · rw [bumpAmount_keys] at h; exact Or.inl h
        · exact Or.inr ⟨a, List.mem_cons_of_mem _ ha⟩
      · rw [if_neg hc] at hg
        rcases ih _ _ _ hg hk with h | ⟨a, ha⟩
        · rw [List.map_append] at h
          rcases List.mem_append.1 h with h' | h'
          · exact Or.inl h'
          · simp at h'
            subst h'
            exact Or.inr ⟨a0, List.mem_cons_self _ _⟩
        · exact Or.inr ⟨a, List.mem_cons_of_mem _ ha⟩

/-- Full description of the `drink_infos` dict built from an empty
accumulator: each entry holds the summed amount for its key together with the
drink row the validation loop read. -/
theorem gather_mem_char (db : DB) (items : List (Int × Int)) (res : List (Int × Info))
    (hg : gatherInfos db items [] = some res) :
    ∀ p ∈ res, ∃ r, lookupDrink db p.1 = some r ∧
      p.2 = ⟨amountSum items p.1, r.sales_price, r.bottles_full, r.bottles_empty⟩ := by
  intro p hp
  have hnd : (res.map Prod.fst).Nodup :=
    gather_nodup db items [] res hg (by simp)
  have hk : p.1 ∈ res.map Prod.fst := List.mem_map.2 ⟨p, hp, rfl⟩
  rcases gather_keys_sub db items [] res p.1 hg hk with h | ⟨a, ha⟩
  · simp at h
  · obtain ⟨r, hr, hres⟩ := gather_found db items [] res p.1 hg (by simp [findInfo?]) ⟨a, ha⟩
    have := findInfo?_of_mem_nodup res p.1 p.2 hnd (by simpa using hp)
    rw [this] at hres
    exact ⟨r, hr, by injection hres⟩

/-! ### Lemmas about the write loop of `consume_drinks` -/

theorem applyInfos_accounts (aid : Int) (now : Nat) (tid : Int) :
    ∀ (infos : List (Int × Info)) (db : DB),
      (applyInfos db aid now tid infos).accounts = db.accounts
  | [], _ => rfl
  | (d, v) :: rest, db => by
    rw [applyInfos]
    exact applyInfos_accounts aid now tid rest _

theorem applyInfos_kings (aid : Int) (now : Nat) (tid : Int) :
    ∀ (infos : List (Int × Info)) (db : DB),
      (applyInfos db aid now tid infos).kings = db.kings
  | [], _ => rfl
  | (d, v) :: rest, db => by
    rw [applyInfos]
    exact applyInfos_kings aid now tid rest _

theorem applyInfos_transacts (aid : Int) (now : Nat) (tid : Int) :
    ∀ (infos : List (Int × Info)) (db : DB),
      (applyInfos db aid now tid infos).transacts
        = db.transacts
            ++ infos.map (fun p => ⟨tid, aid, p.1, p.2.amount, -p.2.sales_price, now⟩)
  | [], db => by simp [applyInfos]
  | (d, v) :: rest, db => by
    rw [applyInfos, applyInfos_transacts aid now tid rest _]
    simp

theorem applyInfos_find_none (aid : Int) (now : Nat) (tid : Int) :
    ∀ (infos : List (Int × Info)) (db : DB) (d : Int), findInfo? infos d = none →
      (applyInfos db aid now tid infos).drinks.find? (fun r => r.did == d)
        = db.drinks.find? (fun r => r.did == d)
  | [], db, d, _ => rfl
  | (d0, v0) :: rest, db, d, h => by
    rw [findInfo?_cons] at h
    by_cases hd : d0 = d
    · rw [if_pos hd] at h; cases h
    · rw [if_neg hd] at h
      rw [applyInfos, applyInfos_find_none aid now tid rest _ _ h]
      exact find?_updateDrink_ne _ _ _ _ _ (Ne.symm hd)

theorem applyInfos_find_some (aid : Int) (now : Nat) (tid : Int) :
    ∀ (infos : List (Int × Info)) (db : DB) (d : Int) (v : Info),
      (infos.map Prod.fst).Nodup → findInfo? infos d = some v →
      (applyInfos db aid now tid infos).drinks.find? (fun r => r.did == d)
        = (db.drinks.find? (fun r => r.did == d)).map
            (fun r => { r with
              bottles_full := if v.bottles_full - v.amount < 0 then 0
                else v.bottles_full - v.amount
              bottles_empty := v.bottles_empty + v.amount })
  | [], db, d, v, _, h => by simp [findInfo?] at h
  | (d0, v0) :: rest, db, d, v, hnd, h => by
    rw [findInfo?_cons] at h
    simp only [List.map_cons, List.nodup_cons] at hnd
    by_cases hd : d0 = d
    · rw [if_pos hd] at h
      injection h with h
      subst h
      subst hd
      have hrest : findInfo? rest d0 = none :=
        (findInfo?_eq_none_iff rest d0).2 hnd.1
      rw [applyInfos, applyInfos_find_none aid now tid rest _ _ hrest]
      exact find?_updateDrink_eq _ _ _ _
    · rw [if_neg hd] at h
      rw [applyInfos, applyInfos_find_some aid now tid rest _ _ _ hnd.2 h]
      rw [find?_updateDrink_ne _ _ _ _ _ (Ne.symm hd)]

/-! ### Lemmas about the kings table -/

theorem findKing_cons (r : KingRow) (ks : List KingRow) (a d : Int) :
    findKing (r :: ks) a d
      = if r.aid = a ∧ r.did = d then some r.quaffed else findKing ks a d := by
  by_cases h : r.aid = a ∧ r.did = d
  · rw [findKing, List.find?_cons_of_pos]
    · simp [h]
    · simp [h.1, h.2]
  · rw [findKing, List.find?_cons_of_neg]
    · simp [h, findKing]
    · simp only [Bool.and_eq_true, beq_iff_eq]
      exact fun hc => h hc

theorem setKing_cons (r : KingRow) (ks : List KingRow) (a d w : Int) :
    setKing (r :: ks) a d w
      = (if r.aid = a ∧ r.did = d then { r with quaffed := w } else r) :: setKing ks a d w := by
  by_cases h : r.aid = a ∧ r.did = d
  · simp [setKing, h]
  · simp only [setKing, List.map_cons]
    congr 1
    have : (r.aid == a && r.did == d) = false := by
      simp only [Bool.and_eq_false_iff, beq_eq_false_iff_ne, ne_eq]
      by_cases h1 : r.aid = a
      · exact Or.inr (fun h2 => h ⟨h1, h2⟩)
      · exact Or.inl h1
    rw [this]
    simp [h]

theorem findKing_setKing_self (ks : List KingRow) (a d w : Int) :
    findKing (setKing ks a d w) a d = (findKing ks a d).map (fun _ => w) := by
  induction ks with
  | nil => rfl
  | cons r rs ih =>
    by_cases h : r.aid = a ∧ r.did = d
    · rw [setKing_cons, if_pos h, findKing_cons, findKing_cons, if_pos h, if_pos h]
      rfl
    · rw [setKing_cons, if_neg h, findKing_cons, findKing_cons, if_neg h, if_neg h]
      exact ih

theorem findKing_setKing_ne (ks : List KingRow) (a' d' w a d : Int) (h : d ≠ d') :
    findKing (setKing ks a' d' w) a d = findKing ks a d := by
  induction ks with
  | nil => rfl
  | cons r rs ih =>
    rw [setKing_cons, findKing_cons, findKing_cons]
    by_cases hr : r.aid = a' ∧ r.did = d'
    · have : ¬ ({ r with quaffed := w } : KingRow).aid = a ∧ ({ r with quaffed := w } : KingRow).did = d → True := fun _ => trivial
      rw [if_pos hr, if_neg, if_neg, ih]
      · rintro ⟨h1, h2⟩
        exact h (h2 ▸ hr.2 ▸ rfl)
      · rintro ⟨h1, h2⟩
        exact h (hr.2 ▸ h2 ▸ rfl)
    · rw [if_neg hr, ih]

theorem findKing_append_of_some (ks l : List KingRow) (a d q : Int)
    (h : findKing ks a d = some q) : findKing (ks ++ l) a d = some q := by
  induction ks with
  | nil => simp [findKing] at h
  | cons r rs ih =>
    rw [findKing_cons] at h
    rw [List.cons_append, findKing_cons]
    by_cases hr : r.aid = a ∧ r.did = d
    · rwa [if_pos hr] at h ⊢
    · rw [if_neg hr] at h ⊢
      exact ih h

theorem findKing_append_single (ks : List KingRow) (row : KingRow) (a d : Int)
    (h : findKing ks a d = none) :
    findKing (ks ++ [row]) a d
      = if row.aid = a ∧ row.did = d then some row.quaffed else none := by
  induction ks with
  | nil => simp [findKing_cons, findKing]
  | cons r rs ih =>
    rw [findKing_cons] at h
    rw [List.cons_append, findKing_cons]
    by_cases hr : r.aid = a ∧ r.did = d
    · rw [if_pos hr] at h; cases h
    · rw [if_neg hr] at h
      rw [if_neg hr]
      exact ih h

theorem setKing_of_none (ks : List KingRow) (a d w : Int)
    (h : findKing ks a d = none) : setKing ks a d w = ks := by
  induction ks with
  | nil => rfl
  | cons r rs ih =>
    rw [findKing_cons] at h
    rw [setKing_cons]
    by_cases hr : r.aid = a ∧ r.did = d
    · rw [if_pos hr] at h; cases h
    · rw [if_neg hr] at h
      rw [if_neg hr, ih h]

theorem setKing_setKing (ks : List KingRow) (a d v1 v2 : Int) :
    setKing (setKing ks a d v1) a d v2 = setKing ks a d v2 := by
  induction ks with
  | nil => rfl
  | cons r rs ih =>
    rw [setKing_cons, setKing_cons, setKing_cons, ih]
    by_cases hr : r.aid = a ∧ r.did = d
    · rw [if_pos hr, if_pos, if_pos hr]
      exact ⟨hr.1, hr.2⟩
    · rw [if_neg hr, if_neg hr]

theorem setKing_append (ks l : List KingRow) (a d w : Int) :
    setKing (ks ++ l) a d w = setKing ks a d w ++ setKing l a d w := by
  simp [setKing]

theorem updateKings_find (a : Int) (items : List (Int × Int)) :
    ∀ (ks : List KingRow) (d v : Int), findKing ks a d = some v →
      findKing (updateKings a ks items) a d = some (v + amountSum items d) := by
  induction items with
  | nil =>
    intro ks d v h
    rw [updateKings]
    simpa [amountSum] using h
  | cons item rest ih =>
    intro ks d v h
    obtain ⟨d0, a0⟩ := item
    rw [updateKings]
    by_cases hd : d0 = d
    · subst hd
      have hb : findKing (bumpKing ks a d0 a0) a d0 = some (v + a0) := by
        rw [bumpKing, h, findKing_setKing_self, h]
        rfl
      rw [amountSum_cons, if_pos rfl, ← add_assoc]
      exact ih _ _ _ hb
    · have hb : findKing (bumpKing ks a d0 a0) a d = some v := by
        rw [bumpKing]
        cases h0 : findKing ks a d0 with
        | none => exact findKing_append_of_some _ _ _ _ _ h
        | some q => rw [findKing_setKing_ne _ _ _ _ _ _ (Ne.symm hd)]; exact h
      rw [amountSum_cons, if_neg hd, zero_add]
      exact ih _ _ _ hb

/-! ### Lemmas about `undo_transaction` -/

theorem undoDrinks_spec :
    ∀ (rows : List TransRow) (ds : List DrinkRow),
      (rows.map TransRow.did).Nodup → (∀ it ∈ rows, it.did ≠ 0) →
      (∀ it ∈ rows, (ds.find? (fun r => r.did == it.did)).isSome) →
      ∃ ds', undoDrinks rows ds = some ds' ∧
        (∀ d, (∀ it ∈ rows, it.did ≠ d) →
            ds'.find? (fun r => r.did == d) = ds.find? (fun r => r.did == d)) ∧
        (∀ it ∈ rows, ds'.find? (fun r => r.did == it.did)
            = (ds.find? (fun r => r.did == it.did)).map
                (fun r => { r with
                  bottles_full := r.bottles_full + it.count
                  bottles_empty := r.bottles_empty - it.count })) := by
  intro rows
  induction rows with
  | nil =>
    intro ds _ _ _
    exact ⟨ds, rfl, fun _ _ => rfl, by simp⟩
  | cons it0 rest ih =>
    intro ds hnd hz hs
    simp only [List.map_cons, List.nodup_cons] at hnd
    have hz0 : it0.did ≠ 0 := hz it0 (List.mem_cons_self _ _)
    cases hf0 : ds.find? (fun r => r.did == it0.did) with
    | none =>
      have := hs it0 (List.mem_cons_self _ _)
      rw [hf0] at this
      cases this
    | some r0 =>
      set ds1 := updateDrink ds it0.did (r0.bottles_full + it0.count)
        (r0.bottles_empty - it0.count) with hds1
      have hstep : undoDrinks (it0 :: rest) ds = undoDrinks rest ds1 := by
        rw [undoDrinks, if_neg (by simpa using hz0), hf0]
      have hne_rest : ∀ it ∈ rest, it.did ≠ it0.did := by
        intro it hit he
        exact hnd.1 (he ▸ List.mem_map.2 ⟨it, hit, rfl⟩)
      have hfind1 : ∀ d, d ≠ it0.did →
          ds1.find? (fun r => r.did == d) = ds.find? (fun r => r.did == d) := by
        intro d hd
        exact find?_updateDrink_ne _ _ _ _ _ hd
      obtain ⟨ds', hrun, hpres, hform⟩ := ih ds1 hnd.2
        (fun it hit => hz it (List.mem_cons_of_mem _ hit))
        (by
          intro it hit
          rw [hfind1 _ (hne_rest it hit)]
          exact hs it (List.mem_cons_of_mem _ hit))
      refine ⟨ds', by rw [hstep]; exact hrun, ?_, ?_⟩
      · intro d hd
        rw [hpres d (fun it hit => hd it (List.mem_cons_of_mem _ hit))]
        exact hfind1 _ (Ne.symm (hd it0 (List.mem_cons_self _ _)))
      · intro it hit
        rcases List.mem_cons.1 hit with rfl | hit'
        · rw [hpres it.did (fun x hx => hne_rest x hx)]
          rw [hds1, find?_updateDrink_eq, hf0]
          rfl
        · rw [hform it hit', hfind1 _ (hne_rest it hit')]

theorem undoKings_spec :
    ∀ (rows : List TransRow) (ks : List KingRow),
      (rows.map TransRow.did).Nodup → (∀ it ∈ rows, it.did ≠ 0) →
      (∀ a d, (∀ it ∈ rows, it.did ≠ d) →
          findKing (undoKings rows ks) a d = findKing ks a d) ∧
      (∀ it ∈ rows, findKing (undoKings rows ks) it.aid it.did
          = (findKing ks it.aid it.did).map (fun q => q - it.count)) := by
  intro rows
  induction rows with
  | nil =>
    intro ks _ _
    exact ⟨fun _ _ _ => rfl, by simp⟩
  | cons it0 rest ih =>
    intro ks hnd hz
    simp only [List.map_cons, List.nodup_cons] at hnd
    have hz0 : it0.did ≠ 0 := hz it0 (List.mem_cons_self _ _)
    have hne_rest : ∀ it ∈ rest, it.did ≠ it0.did := by
      intro it hit he
      exact hnd.1 (he ▸ List.mem_map.2 ⟨it, hit, rfl⟩)
    cases hf0 : findKing ks it0.aid it0.did with
    | none =>
      have hstep : undoKings (it0 :: rest) ks = undoKings rest ks := by
        rw [undoKings, if_neg (by simpa using hz0), hf0]
      obtain ⟨hpres, hform⟩ := ih ks hnd.2 (fun it hit => hz it (List.mem_cons_of_mem _ hit))
      refine ⟨?_, ?_⟩
      · intro a d hd
        rw [hstep]
        exact hpres a d (fun it hit => hd it (List.mem_cons_of_mem _ hit))
      · intro it hit
        rcases List.mem_cons.1 hit with rfl | hit'
        · rw [hstep, hpres it.aid it.did (fun x hx => hne_rest x hx), hf0]
          rfl
        · rw [hstep]
          exact hform it hit'
    | some q =>
      set ks1 := setKing ks it0.aid it0.did (q - it0.count) with hks1
      have hstep : undoKings (it0 :: rest) ks = undoKings rest ks1 := by
        rw [undoKings, if_neg (by simpa using hz0), hf0]
      obtain ⟨hpres, hform⟩ := ih ks1 hnd.2 (fun it hit => hz it (List.mem_cons_of_mem _ hit))
      have hfind1 : ∀ a d, d ≠ it0.did → findKing ks1 a d = findKing ks a d := by
        intro a d hd
        exact findKing_setKing_ne _ _ _ _ _ _ hd
      refine ⟨?_, ?_⟩
      · intro a d hd
        rw [hstep, hpres a d (fun it hit => hd it (List.mem_cons_of_mem _ hit))]
        exact hfind1 _ _ (Ne.symm (hd it0 (List.mem_cons_self _ _)))
      · intro it hit
        rcases List.mem_cons.1 hit with rfl | hit'
        · rw [hstep, hpres it.aid it.did (fun x hx => hne_rest x hx), hks1,
            findKing_setKing_self, hf0]
          rfl
        · rw [hstep, hform it hit', hfind1 _ _ (hne_rest it hit')]

/-! ### Freshness of transaction ids -/

theorem filter_tid_eq (old new : List TransRow) (t : Int)
    (hold : ∀ r ∈ old, r.tid ≠ t) (hnew : ∀ r ∈ new, r.tid = t) :
    (old ++ new).filter (fun r => r.tid == t) = new := by
  rw [List.filter_append]
  have h1 : old.filter (fun r => r.tid == t) = [] := by
    rw [List.filter_eq_nil_iff]
    intro r hr
    simpa using hold r hr
  have h2 : new.filter (fun r => r.tid == t) = new := by
    rw [List.filter_eq_self]
    intro r hr
    simpa using hnew r hr
  rw [h1, h2, List.nil_append]

theorem filter_tid_ne (old new : List TransRow) (t : Int)
    (hold : ∀ r ∈ old, r.tid ≠ t) (hnew : ∀ r ∈ new, r.tid = t) :
    (old ++ new).filter (fun r => !(r.tid == t)) = old := by
  rw [List.filter_append]
  have h1 : old.filter (fun r => !(r.tid == t)) = old := by
    rw [List.filter_eq_self]
    intro r hr
    simpa using hold r hr
  have h2 : new.filter (fun r => !(r.tid == t)) = [] := by
    rw [List.filter_eq_nil_iff]
    intro r hr
    simpa using hnew r hr
  rw [h1, h2, List.append_nil]

/-! ### Further helper lemmas -/

theorem ite_neg_clamp (x : Int) : (if x < 0 then 0 else x) = max x 0 := by
  by_cases h : x < 0
  · rw [if_pos h, max_eq_right h.le]
  · rw [if_neg h, max_eq_left (le_of_not_lt h)]

theorem maxTid?_eq_none_iff (l : List TransRow) : maxTid? l = none ↔ l = [] := by
  cases l with
  | nil => simp [maxTid?]
  | cons r rs => simp [maxTid?]

theorem update_king_drinks (db : DB) (a : Int) (items : List (Int × Int)) :
    (update_king db a items).drinks = db.drinks := rfl

theorem update_king_accounts (db : DB) (a : Int) (items : List (Int × Int)) :
    (update_king db a items).accounts = db.accounts := rfl

theorem update_king_transacts (db : DB) (a : Int) (items : List (Int × Int)) :
    (update_king db a items).transacts = db.transacts := rfl

theorem amountSum_nonneg (items : List (Int × Int)) (d : Int)
    (h : ∀ p ∈ items, 0 ≤ p.2) : 0 ≤ amountSum items d := by
  induction items with
  | nil => simp [amountSum]
  | cons p rest ih =>
    obtain ⟨d', a⟩ := p
    rw [amountSum_cons]
    have h1 : 0 ≤ a := h (d', a) (List.mem_cons_self _ _)
    have h2 : 0 ≤ amountSum rest d := ih (fun q hq => h q (List.mem_cons_of_mem _ hq))
    by_cases hd : d' = d
    · rw [if_pos hd]; omega
    · rw [if_neg hd]; omega

theorem bumpKing_bumpKing (ks : List KingRow) (a d x y : Int) :
    bumpKing (bumpKing ks a d x) a d y = bumpKing ks a d (x + y) := by
  cases h0 : findKing ks a d with
  | some v =>
    have f1 : findKing (setKing ks a d (v + x)) a d = some (v + x) := by
      rw [findKing_setKing_self, h0]; rfl
    simp only [bumpKing, h0, f1]
    rw [setKing_setKing, add_assoc]
  | none =>
    have f1 : findKing (ks ++ [⟨a, d, x⟩]) a d = some x := by
      rw [findKing_append_single ks _ a d h0]; simp
    simp only [bumpKing, h0, f1]
    rw [setKing_append, setKing_of_none ks a d _ h0]
    congr 1
    simp [setKing]

theorem applyInfos_nonneg (aid : Int) (now : Nat) (tid : Int) :
    ∀ (infos : List (Int × Info)) (db : DB),
      (∀ r ∈ db.drinks, 0 ≤ r.bottles_full ∧ 0 ≤ r.bottles_empty) →
      (∀ p ∈ infos, 0 ≤ (p.2).bottles_empty + (p.2).amount) →
      ∀ r ∈ (applyInfos db aid now tid infos).drinks,
        0 ≤ r.bottles_full ∧ 0 ≤ r.bottles_empty
  | [], db, hdb, _, r, hr => hdb r hr
  | (d0, v0) :: rest, db, hdb, hinfos, r, hr => by
    rw [applyInfos] at hr
    refine applyInfos_nonneg aid now tid rest _ ?_ ?_ r hr
    · intro x hx
      rcases List.mem_map.1 hx with ⟨y, hy, rfl⟩
      by_cases hyd : y.did = d0
      · have h1 := hdb y hy
        have h2 := hinfos (d0, v0) (List.mem_cons_self _ _)
        simp only [hyd, beq_self_eq_true, if_pos]
        constructor
        · by_cases hlt : v0.bottles_full - v0.amount < 0
          · rw [if_pos hlt]
          · rw [if_neg hlt]; omega
        · simpa using h2
      · simp only [beq_iff_eq, hyd, if_false]
        exact hdb y hy
    · intro p hp
      exact hinfos p (List.mem_cons_of_mem _ hp)

theorem undoDrinks_full_nonneg :
    ∀ (rows : List TransRow) (ds ds' : List DrinkRow),
      undoDrinks rows ds = some ds' → (∀ it ∈ rows, 0 ≤ it.count) →
      (∀ r ∈ ds, 0 ≤ r.bottles_full) → ∀ r ∈ ds', 0 ≤ r.bottles_full
  | [], ds, ds', h, _, hds, r, hr => by
    rw [undoDrinks] at h
    injection h with h
    exact hds r (h ▸ hr)
  | it0 :: rest, ds, ds', h, hc, hds, r, hr => by
    rw [undoDrinks] at h
    by_cases hz : it0.did = 0
    · rw [if_pos (by simpa using hz)] at h
      exact undoDrinks_full_nonneg rest ds ds' h
        (fun it hit => hc it (List.mem_cons_of_mem _ hit)) hds r hr
    · rw [if_neg (by simpa using hz)] at h
      cases hf : ds.find? (fun x => x.did == it0.did) with
      | none => rw [hf] at h; cases h
      | some r0 =>
        rw [hf] at h
        refine undoDrinks_full_nonneg rest _ ds' h
          (fun it hit => hc it (List.mem_cons_of_mem _ hit)) ?_ r hr
        intro x hx
        rcases List.mem_map.1 hx with ⟨y, hy, rfl⟩
        by_cases hyd : y.did = it0.did
        · have h1 := hds r0 (List.mem_of_find?_eq_some hf)
          have h2 := hc it0 (List.mem_cons_self _ _)
          simp only [hyd, beq_self_eq_true, if_pos]
          simpa using by omega
        · simp only [beq_iff_eq, hyd, if_false]
          exact hds y hy

/-- Per-drink effect of a successful `consume_drinks` call: the stored row of
any requested drink id afterwards, in terms of its row before the call and
the coalesced requested quantity. -/
theorem consume_find_char (db : DB) (aid : Int) (items : List (Int × Int)) (now : Nat)
    (infos : List (Int × Info)) (m d a : Int)
    (hg : gatherInfos db items [] = some infos)
    (hm : maxTid? db.transacts = some m)
    (hcap : m + 1 ≠ maxsize)
    (hd : (d, a) ∈ items) :
    ∃ r, lookupDrink db d = some r ∧
      lookupDrink (consume_drinks db aid items now).2 d
        = some { r with
            bottles_full := if r.bottles_full - amountSum items d < 0 then 0
              else r.bottles_full - amountSum items d
            bottles_empty := r.bottles_empty + amountSum items d } := by
  obtain ⟨r, hr, hfi⟩ := gather_found db items [] infos d hg (by simp [findInfo?]) ⟨a, hd⟩
  have hnd : (infos.map Prod.fst).Nodup := gather_nodup db items [] infos hg (by simp)
  refine ⟨r, hr, ?_⟩
  have hres : (consume_drinks db aid items now).2
      = update_king (applyInfos db aid now (m + 1) infos) aid items := by
    simp only [consume_drinks, hg, hm]
    rw [if_neg hcap]
  rw [hres]
  show (applyInfos db aid now (m + 1) infos).drinks.find? (fun x => x.did == d) = _
  rw [applyInfos_find_some aid now (m + 1) infos db d _ hnd hfi]
  rw [lookupDrink] at hr
  rw [hr]
  rfl

/-! ### Concrete stores used as test fixtures -/

/-- A drink with 5 full and 15 empty bottles, as in the repository tests. -/
def drinkA : DrinkRow := ⟨1, "Fanta", 100, 85, 15, 5, 15, false, true⟩

/-- One account, one drink, one kings counter, one credit entry. -/
def baseDB : DB := ⟨[(1, "Noob")], [drinkA], [⟨1, 1, 7⟩], [⟨1, 1, 0, 1, 1000, 0⟩]⟩

/-- A drink with only one full bottle and no empties. -/
def drinkLow : DrinkRow := ⟨1, "Mate", 100, 85, 15, 1, 0, false, false⟩

/-- A store whose only drink is `drinkLow`. -/
def dbLow : DB := ⟨[(1, "Noob")], [drinkLow], [], [⟨1, 1, 0, 1, 500, 0⟩]⟩

/-- A store with one account and one drink but an empty transaction log. -/
def dbEmptyLog : DB := ⟨[(1, "Noob")], [drinkA], [], []⟩

/-- The freshly created, fully empty store. -/
def dbEmpty : DB := ⟨[], [], [], []⟩

/-- A store with a single account and nothing else. -/
def dbStart : DB := ⟨[(1, "Noob")], [], [], []⟩

/-! ### The claims -/

/-- C1 (counterexample): the spec formula
`new_empty = bottles_empty + quantity + max(quantity - bottles_full, 0)` is
wrong on the code.  Consuming 3 bottles of a drink with 1 full and 0 empty
bottles leaves 3 empties (the code always adds exactly the quantity), not the
5 the formula predicts. -/
theorem consume_empties_formula_cex :
    (lookupDrink (consume_drinks dbLow 1 [(1, 3)] 1).2 1).map DrinkRow.bottles_empty
      ≠ some (0 + 3 + max (3 - 1) 0) := by decide

/-- C1 (amended): for every successful `consume_drinks` call and every
requested drink id `d` with coalesced quantity `q = amountSum items d`, the
stored row afterwards has `bottles_full = max (old - q) 0` and
`bottles_empty = old + q` (the empties grow by exactly the quantity). -/
theorem consume_inventory_update (db : DB) (aid : Int) (items : List (Int × Int)) (now : Nat)
    (infos : List (Int × Info)) (m d a : Int)
    (hg : gatherInfos db items [] = some infos)
    (hm : maxTid? db.transacts = some m)
    (hcap : m + 1 ≠ maxsize)
    (hd : (d, a) ∈ items) :
    ∃ r, lookupDrink db d = some r ∧
      lookupDrink (consume_drinks db aid items now).2 d
        = some { r with
            bottles_full := max (r.bottles_full - amountSum items d) 0
            bottles_empty := r.bottles_empty + amountSum items d } := by
  obtain ⟨r, hr, hpost⟩ := consume_find_char db aid items now infos m d a hg hm hcap hd
  refine ⟨r, hr, ?_⟩
  rw [hpost, ite_neg_clamp]

theorem consume_inventory_update_witness :
    ∃ r, lookupDrink baseDB 1 = some r ∧
      lookupDrink (consume_drinks baseDB 1 [(1, 10)] 2).2 1
        = some { r with
            bottles_full := max (r.bottles_full - amountSum [(1, 10)] 1) 0
            bottles_empty := r.bottles_empty + amountSum [(1, 10)] 1 } :=
  consume_inventory_update baseDB 1 [(1, 10)] 2 [(1, ⟨10, 100, 5, 15⟩)] 1 1 10
    (by decide) (by decide) (by decide) (by decide)

/-- C3 (counterexample): `bottles_full + bottles_empty` after a consume does
not equal its prior value plus the consumed quantity.  Consuming 2 of a drink
with 5 full and 15 empty leaves 3 full and 17 empty: the sum 20 is conserved,
it does not become 22. -/
theorem bottle_conservation_cex :
    (lookupDrink (consume_drinks baseDB 1 [(1, 2)] 1).2 1).map
        (fun r => r.bottles_full + r.bottles_empty)
      ≠ some (drinkA.bottles_full + drinkA.bottles_empty + 2) := by decide

/-- C3 (amended): for every successful `consume_drinks` call and requested
drink with coalesced quantity `q`, the sum `bottles_full + bottles_empty`
afterwards equals its prior value plus `max (q - bottles_full) 0`: it is
conserved exactly when the quantity does not exceed the available full
bottles, and grows by the shortfall otherwise. -/
theorem bottle_sum_change (db : DB) (aid : Int) (items : List (Int × Int)) (now : Nat)
    (infos : List (Int × Info)) (m d a : Int)
    (hg : gatherInfos db items [] = some infos)
    (hm : maxTid? db.transacts = some m)
    (hcap : m + 1 ≠ maxsize)
    (hd : (d, a) ∈ items) :
    ∃ r, lookupDrink db d = some r ∧
      (lookupDrink (consume_drinks db aid items now).2 d).map
          (fun x => x.bottles_full + x.bottles_empty)
        = some (r.bottles_full + r.bottles_empty
            + max (amountSum items d - r.bottles_full) 0) := by
  obtain ⟨r, hr, hpost⟩ := consume_find_char db aid items now infos m d a hg hm hcap hd
  refine ⟨r, hr, ?_⟩
  rw [hpost]
  simp only [Option.map_some']
  congr 1
  by_cases h : r.bottles_full - amountSum items d < 0
  · rw [if_pos h, max_eq_left (by omega)]
    omega
  · rw [if_neg h, max_eq_right (by omega)]
    omega

theorem bottle_sum_change_witness :
    ∃ r, lookupDrink baseDB 1 = some r ∧
      (lookupDrink (consume_drinks baseDB 1 [(1, 10)] 2).2 1).map
          (fun x => x.bottles_full + x.bottles_empty)
        = some (r.bottles_full + r.bottles_empty
            + max (amountSum [(1, 10)] 1 - r.bottles_full) 0) :=
  bottle_sum_change baseDB 1 [(1, 10)] 2 [(1, ⟨10, 100, 5, 15⟩)] 1 1 10
    (by decide) (by decide) (by decide) (by decide)

/-- C4 (code bug): `add_credit` starts the log at tid 1, but `consume_drinks`
on an empty transaction log hits `MAX(tid) = NULL` and raises a TypeError
from `None + 1` instead of assigning tid 1; the model returns the
`tidTypeError` status with the store untouched. -/
theorem consume_empty_log_crash :
    consume_drinks dbEmptyLog 1 [(1, 10)] 0 = (ConsumeStatus.tidTypeError, dbEmptyLog)
      ∧ (add_credit dbEmptyLog 1 50 0).transacts.map TransRow.tid = [1] := by decide

/-- C6: if any requested drink id is missing from the drinks table,
`consume_drinks` aborts with the not-found outcome and the whole store — all
four tables — is returned unchanged. -/
theorem consume_missing_drink_aborts (db : DB) (aid : Int) (items : List (Int × Int))
    (now : Nat) (d a : Int) (hd : (d, a) ∈ items) (hmiss : lookupDrink db d = none) :
    consume_drinks db aid items now = (ConsumeStatus.notFound, db) := by
  rw [consume_drinks, gather_none db items d a hd hmiss []]

theorem consume_missing_drink_aborts_witness :
    consume_drinks baseDB 1 [(2, 1)] 0 = (ConsumeStatus.notFound, baseDB) :=
  consume_missing_drink_aborts baseDB 1 [(2, 1)] 0 2 1 (by decide) (by decide)

/-- C9 (counterexample): `set_drink` with an empty field list does not fail
silently: `nspdfek[0] = nspdfek[0]` raises an IndexError before the length
check is reached. -/
theorem set_drink_empty_fields_cex :
    (set_drink baseDB 1 []).1 = SetDrinkStatus.indexError ∧
    (set_drink baseDB 1 []).1 ≠ SetDrinkStatus.wrongCount := by decide

/-- C9 (amended): for every non-empty field list whose length is not 7,
`set_drink` only logs and returns with the store unchanged, raising nothing;
the empty list instead raises an IndexError. -/
theorem set_drink_wrong_count_noop (db : DB) (d : Int) (fields : List Val)
    (hne : fields ≠ []) (hlen : fields.length ≠ 7) :
    set_drink db d fields = (SetDrinkStatus.wrongCount, db) := by
  cases fields with
  | nil => exact absurd rfl hne
  | cons f0 rest =>
    simp only [set_drink]
    rw [if_neg hlen]

theorem set_drink_wrong_count_noop_witness :
    set_drink baseDB 1 [Val.i 3] = (SetDrinkStatus.wrongCount, baseDB) :=
  set_drink_wrong_count_noop baseDB 1 [Val.i 3] (by decide) (by decide)

/-- C10: `del_account` filters the account's rows out of the accounts,
transacts and kings tables and leaves the drinks table — every row, every
column — untouched. -/
theorem del_account_frame (db : DB) (a : Int) :
    (del_account db a).drinks = db.drinks ∧
    (del_account db a).accounts = db.accounts.filter (fun p => !(p.1 == a)) ∧
    (del_account db a).transacts = db.transacts.filter (fun r => !(r.aid == a)) ∧
    (del_account db a).kings = db.kings.filter (fun r => !(r.aid == a)) :=
  ⟨rfl, rfl, rfl, rfl⟩

/-- First step of the tid-reuse trace: one credit, gets tid 1. -/
def dbC5a : DB := add_credit dbStart 1 10 0

/-- Second step: another credit, gets tid 2. -/
def dbC5b : DB := add_credit dbC5a 1 10 1

/-- Third step: undo the transaction with tid 2. -/
def dbC5c : DB := (undo_transaction dbC5b 2).getD dbC5b

/-- C5 (counterexample): tid 2 is assigned to the second credit, the undo of
tid 2 succeeds and deletes its entry, and the next credit is assigned tid 2
again — the same transaction id is handed out twice. -/
theorem tid_reuse_after_undo_cex :
    (dbC5b.transacts.getLast?).map TransRow.tid = some 2 ∧
    (undo_transaction dbC5b 2).isSome = true ∧
    ((add_credit dbC5c 1 10 2).transacts.getLast?).map TransRow.tid = some 2 := by decide

/-- C5 (amended): every ledger entry written by `add_credit` or a successful
`consume_drinks` carries the tid `newTid db`, which is strictly greater than
every tid present in the table at assignment time; hence tids increase
strictly along any sequence without `undo_transaction`, but undoing the
entries that carry the maximal tid lets the same tid be assigned again. -/
theorem tid_fresh_assignment (db : DB) (aid credit : Int) (items : List (Int × Int))
    (now : Nat) :
    (∀ r ∈ db.transacts, r.tid < newTid db) ∧
    (∀ r ∈ (add_credit db aid credit now).transacts,
        r ∈ db.transacts ∨ r.tid = newTid db) ∧
    ((consume_drinks db aid items now).1 = ConsumeStatus.ok →
      ∀ r ∈ (consume_drinks db aid items now).2.transacts,
        r ∈ db.transacts ∨ r.tid = newTid db) := by
  refine ⟨?_, ?_, ?_⟩
  · intro r hr
    cases hm : maxTid? db.transacts with
    | none =>
      rw [maxTid?_eq_none_iff] at hm
      rw [hm] at hr
      simp at hr
    | some m =>
      have := maxTid?_le db.transacts m hm r hr
      simp only [newTid, hm]
      omega
  · intro r hr
    simp only [add_credit] at hr
    rcases List.mem_append.1 hr with h | h
    · exact Or.inl h
    · right
      simp at h
      rw [h]
  · intro hok r hr
    cases hg : gatherInfos db items [] with
    | none => simp [consume_drinks, hg] at hok
    | some infos =>
      cases hm : maxTid? db.transacts with
      | none => simp [consume_drinks, hg, hm] at hok
      | some m =>
        by_cases hcap : m + 1 = maxsize
        · simp [consume_drinks, hg, hm, hcap] at hok
        · have h2 : (consume_drinks db aid items now).2
              = update_king (applyInfos db aid now (m + 1) infos) aid items := by
            simp only [consume_drinks, hg, hm]
            rw [if_neg hcap]
          rw [h2, update_king_transacts, applyInfos_transacts] at hr
          rcases List.mem_append.1 hr with h | h
          · exact Or.inl h
          · right
            rcases List.mem_map.1 h with ⟨p, hp, rfl⟩
            show m + 1 = newTid db
            simp only [newTid, hm]

theorem tid_fresh_assignment_witness :
    (∀ r ∈ baseDB.transacts, r.tid < newTid baseDB) ∧
    (∀ r ∈ (add_credit baseDB 1 5 7).transacts,
        r ∈ baseDB.transacts ∨ r.tid = newTid baseDB) ∧
    ((consume_drinks baseDB 1 [(1, 2)] 7).1 = ConsumeStatus.ok →
      ∀ r ∈ (consume_drinks baseDB 1 [(1, 2)] 7).2.transacts,
        r ∈ baseDB.transacts ∨ r.tid = newTid baseDB) :=
  tid_fresh_assignment baseDB 1 5 [(1, 2)] 7

theorem updateKings_triple (a d : Int) (ks : List KingRow) :
    updateKings a ks [(d, 10), (d, 20), (d, 30)] = updateKings a ks [(d, 60)] := by
  simp only [updateKings]
  rw [bumpKing_bumpKing, bumpKing_bumpKing]
  norm_num

/-- C7: a request listing the same drink three times with quantities 10, 20
and 30 is indistinguishable from a single item with quantity 60 — the whole
resulting store is equal — and the successful call appends exactly one ledger
entry, with count 60, under the single fresh tid. -/
theorem consume_coalesce (db : DB) (aid d : Int) (now : Nat) (r : DrinkRow)
    (hr : lookupDrink db d = some r) :
    consume_drinks db aid [(d, 10), (d, 20), (d, 30)] now
      = consume_drinks db aid [(d, 60)] now ∧
    (∀ m, maxTid? db.transacts = some m → m + 1 ≠ maxsize →
      (consume_drinks db aid [(d, 60)] now).2.transacts
        = db.transacts ++ [⟨m + 1, aid, d, 60, -r.sales_price, now⟩]) := by
  have hg3 : gatherInfos db [(d, 10), (d, 20), (d, 30)] []
      = some [(d, ⟨60, r.sales_price, r.bottles_full, r.bottles_empty⟩)] := by
    simp [gatherInfos, hr, containsKey, bumpAmount]
  have hg1 : gatherInfos db [(d, 60)] []
      = some [(d, ⟨60, r.sales_price, r.bottles_full, r.bottles_empty⟩)] := by
    simp [gatherInfos, hr, containsKey]
  constructor
  · cases hm : maxTid? db.transacts with
    | none => simp only [consume_drinks, hg3, hg1, hm]
    | some m =>
      by_cases hcap : m + 1 = maxsize
      · simp only [consume_drinks, hg3, hg1, hm, if_pos hcap]
      · simp only [consume_drinks, hg3, hg1, hm, if_neg hcap]
        simp only [update_king]
        rw [updateKings_triple]
  · intro m hm hcap
    have h2 : (consume_drinks db aid [(d, 60)] now).2
        = update_king (applyInfos db aid now (m + 1)
            [(d, ⟨60, r.sales_price, r.bottles_full, r.bottles_empty⟩)]) aid [(d, 60)] := by
      simp only [consume_drinks, hg1, hm]
      rw [if_neg hcap]
    rw [h2, update_king_transacts, applyInfos_transacts]
    simp

theorem consume_coalesce_witness :
    consume_drinks baseDB 1 [(1, 10), (1, 20), (1, 30)] 4
      = consume_drinks baseDB 1 [(1, 60)] 4 ∧
    (∀ m, maxTid? baseDB.transacts = some m → m + 1 ≠ maxsize →
      (consume_drinks baseDB 1 [(1, 60)] 4).2.transacts
        = baseDB.transacts ++ [⟨m + 1, 1, 1, 60, -drinkA.sales_price, 4⟩]) :=
  consume_coalesce baseDB 1 1 4 drinkA (by decide)

/-- C8 (counterexample): the public interface does not keep bottle counts
non-negative: `add_drink` inserts whatever counts it is handed, so adding a
drink with -5 full and -3 empty bottles leaves a row violating the spec
invariant. -/
theorem nonneg_invariant_cex :
    ¬ ∀ r ∈ (add_drink dbEmpty "X" 1 1 1 (-5) (-3) false).drinks,
        0 ≤ r.bottles_full ∧ 0 ≤ r.bottles_empty := by decide

/-- C8 (amended): starting from a store whose drink rows all have
non-negative bottle counts, `add_drink` and `set_drink` preserve this when
given non-negative counts, `consume_drinks` preserves it when all requested
quantities are non-negative, `del_drink` and `del_account` always preserve
it, and a successful `undo_transaction` whose undone entries have
non-negative counts preserves `bottles_full >= 0` (it can drive
`bottles_empty` negative, which is why the unconditional claim fails). -/
theorem nonneg_preservation (db : DB) (hnn : nonnegDrinks db)
    (nm : String) (sp pp dep f e : Int) (k : Bool) (d aid t : Int)
    (items : List (Int × Int)) (now : Nat) :
    (0 ≤ f → 0 ≤ e → nonnegDrinks (add_drink db nm sp pp dep f e k)) ∧
    (0 ≤ f → 0 ≤ e →
      nonnegDrinks (set_drink db d [.s nm, .i sp, .i pp, .i dep, .i f, .i e, .b k]).2) ∧
    ((∀ p ∈ items, 0 ≤ p.2) → nonnegDrinks (consume_drinks db aid items now).2) ∧
    nonnegDrinks (del_drink db d) ∧
    nonnegDrinks (del_account db aid) ∧
    ((∀ rr ∈ db.transacts, rr.tid = t → 0 ≤ rr.count) →
      ∀ db', undo_transaction db t = some db' → ∀ r ∈ db'.drinks, 0 ≤ r.bottles_full) := by
  refine ⟨?_, ?_, ?_, ?_, ?_, ?_⟩
  · intro hf he r hr
    simp only [add_drink] at hr
    rcases List.mem_append.1 hr with h | h
    · exact hnn r h
    · simp only [List.mem_singleton] at h
      subst h
      exact ⟨hf, he⟩
  · intro hf he r hr
    simp only [set_drink, List.length_cons, List.length_nil] at hr
    rw [if_pos (by norm_num)] at hr
    rcases List.mem_map.1 hr with ⟨y, hy, rfl⟩
    by_cases hyd : (y.did == d) = true
    · rw [if_pos hyd]
      exact ⟨hf, he⟩
    · rw [if_neg hyd]
      exact hnn y hy
  · intro hq
    cases hg : gatherInfos db items [] with
    | none =>
      simp only [consume_drinks, hg]
      exact hnn
    | some infos =>
      cases hm : maxTid? db.transacts with
      | none =>
        simp only [consume_drinks, hg, hm]
        exact hnn
      | some m =>
        by_cases hcap : m + 1 = maxsize
        · simp only [consume_drinks, hg, hm, if_pos hcap]
          exact hnn
        · simp only [consume_drinks, hg, hm, if_neg hcap]
          intro r hr
          rw [update_king_drinks] at hr
          refine applyInfos_nonneg aid now (m + 1) infos db hnn ?_ r hr
          intro p hp
          obtain ⟨rr, hrr, hval⟩ := gather_mem_char db items infos hg p hp
          rw [lookupDrink] at hrr
          have h1 : rr ∈ db.drinks := List.mem_of_find?_eq_some hrr
          have h2 := (hnn rr h1).2
          have h3 : 0 ≤ amountSum items p.1 := amountSum_nonneg items p.1 hq
          rw [hval]
          show 0 ≤ rr.bottles_empty + amountSum items p.1
          omega
  · intro r hr
    simp only [del_drink, List.mem_map] at hr
    obtain ⟨y, hy, rfl⟩ := hr
    split <;> exact hnn y hy
  · exact fun r hr => hnn r hr
  · intro hcnt db' hdb' r hr
    cases hud : undoDrinks (db.transacts.filter (fun x => x.tid == t)) db.drinks with
    | none => simp [undo_transaction, hud] at hdb'
    | some ds =>
      simp only [undo_transaction, hud, Option.some.injEq] at hdb'
      subst hdb'
      refine undoDrinks_full_nonneg _ _ _ hud ?_ (fun x hx => (hnn x hx).1) r hr
      intro it hit
      have hmem := List.mem_filter.1 hit
      exact hcnt it hmem.1 (by simpa using hmem.2)

theorem nonneg_preservation_witness :
    (0 ≤ (2 : Int) → 0 ≤ (3 : Int) →
      nonnegDrinks (add_drink baseDB "Y" 9 8 7 2 3 true)) ∧
    (0 ≤ (2 : Int) → 0 ≤ (3 : Int) →
      nonnegDrinks (set_drink baseDB 1
        [.s "Y", .i 9, .i 8, .i 7, .i 2, .i 3, .b true]).2) ∧
    ((∀ p ∈ [((1 : Int), (4 : Int))], 0 ≤ p.2) →
      nonnegDrinks (consume_drinks baseDB 1 [(1, 4)] 9).2) ∧
    nonnegDrinks (del_drink baseDB 1) ∧
    nonnegDrinks (del_account baseDB 1) ∧
    ((∀ rr ∈ baseDB.transacts, rr.tid = 1 → 0 ≤ rr.count) →
      ∀ db', undo_transaction baseDB 1 = some db' → ∀ r ∈ db'.drinks, 0 ≤ r.bottles_full) :=
  nonneg_preservation baseDB
    (by decide : ∀ r ∈ baseDB.drinks, 0 ≤ r.bottles_full ∧ 0 ≤ r.bottles_empty)
    "Y" 9 8 7 2 3 true 1 1 1 [(1, 4)] 9

/-- C2: undoing, immediately, the transaction created by a successful and
unclamped `consume_drinks` call (every coalesced quantity at most the drink's
full bottles, quantified over the built dict) restores the full drink row of
every requested drink, restores the quaffed value of every kings counter of
the account that existed before the call, and restores the transaction
table itself.  Drink ids are assumed pairwise distinct in the drinks table
(its primary key) and the request references no drink id 0 (the reserved
pure-credit marker). -/
theorem consume_undo_roundtrip (db : DB) (aid : Int) (items : List (Int × Int)) (now : Nat)
    (infos : List (Int × Info)) (m : Int)
    (hg : gatherInfos db items [] = some infos)
    (hm : maxTid? db.transacts = some m)
    (hcap : m + 1 ≠ maxsize)
    (hz : ∀ p ∈ items, p.1 ≠ (0 : Int))
    (hnoclamp : ∀ p ∈ infos, (p.2).amount ≤ (p.2).bottles_full) :
    ∃ db2, undo_transaction (consume_drinks db aid items now).2 (m + 1) = some db2 ∧
      (∀ p ∈ items, lookupDrink db2 p.1 = lookupDrink db p.1) ∧
      (∀ p ∈ items, ∀ v : Int, findKing db.kings aid p.1 = some v →
          findKing db2.kings aid p.1 = some v) ∧
      db2.transacts = db.transacts := by
  have hnd : (infos.map Prod.fst).Nodup := gather_nodup db items [] infos hg (by simp)
  have hres : (consume_drinks db aid items now).2
      = update_king (applyInfos db aid now (m + 1) infos) aid items := by
    simp only [consume_drinks, hg, hm]
    rw [if_neg hcap]
  rw [hres]
  set db1 := update_king (applyInfos db aid now (m + 1) infos) aid items with hdb1
  set rows : List TransRow :=
    infos.map (fun p => ⟨m + 1, aid, p.1, (p.2).amount, -(p.2).sales_price, now⟩) with hrows
  have hdr1 : db1.drinks = (applyInfos db aid now (m + 1) infos).drinks := rfl
  have hk1 : db1.kings = updateKings aid db.kings items := by
    rw [hdb1]
    show updateKings aid (applyInfos db aid now (m + 1) infos).kings items = _
    rw [applyInfos_kings]
  have ht1 : db1.transacts = db.transacts ++ rows := by
    rw [hdb1, update_king_transacts, applyInfos_transacts, hrows]
  have hfresh : ∀ r ∈ db.transacts, r.tid ≠ m + 1 := by
    intro r hrr
    have := maxTid?_le db.transacts m hm r hrr
    omega
  have hrows_t : ∀ r ∈ rows, r.tid = m + 1 := by
    intro r hrr
    rw [hrows] at hrr
    rcases List.mem_map.1 hrr with ⟨p, hp, rfl⟩
    rfl
  have hentries : db1.transacts.filter (fun r => r.tid == (m + 1)) = rows := by
    rw [ht1]
    exact filter_tid_eq _ _ _ hfresh hrows_t
  have hdel : db1.transacts.filter (fun r => !(r.tid == (m + 1))) = db.transacts := by
    rw [ht1]
    exact filter_tid_ne _ _ _ hfresh hrows_t
  have hrows_did : rows.map TransRow.did = infos.map Prod.fst := by
    rw [hrows, List.map_map]
    rfl
  have hrows_nd : (rows.map TransRow.did).Nodup := by
    rw [hrows_did]
    exact hnd
  have hkeys0 : ∀ kk ∈ infos.map Prod.fst, kk ≠ (0 : Int) := by
    intro kk hkk
    rcases gather_keys_sub db items [] infos kk hg hkk with h | ⟨a, ha⟩
    · simp at h
    · exact hz (kk, a) ha
  have hrows_z : ∀ it ∈ rows, it.did ≠ 0 := by
    intro it hit
    rw [hrows] at hit
    rcases List.mem_map.1 hit with ⟨p, hp, rfl⟩
    exact hkeys0 p.1 (List.mem_map.2 ⟨p, hp, rfl⟩)
  have hchar := gather_mem_char db items infos hg
  have hfind1 : ∀ p ∈ infos,
      db1.drinks.find? (fun r => r.did == p.1)
        = (db.drinks.find? (fun r => r.did == p.1)).map
            (fun r => { r with
              bottles_full := if (p.2).bottles_full - (p.2).amount < 0 then 0
                else (p.2).bottles_full - (p.2).amount
              bottles_empty := (p.2).bottles_empty + (p.2).amount }) := by
    intro p hp
    have hfi : findInfo? infos p.1 = some p.2 :=
      findInfo?_of_mem_nodup infos p.1 p.2 hnd (by simpa using hp)
    rw [hdr1]
    exact applyInfos_find_some aid now (m + 1) infos db p.1 p.2 hnd hfi
  have hsome : ∀ it ∈ rows, (db1.drinks.find? (fun r => r.did == it.did)).isSome := by
    intro it hit
    rw [hrows] at hit
    rcases List.mem_map.1 hit with ⟨p, hp, rfl⟩
    obtain ⟨rr, hrr, hval⟩ := hchar p hp
    rw [lookupDrink] at hrr
    show (db1.drinks.find? (fun r => r.did == p.1)).isSome
    rw [hfind1 p hp, hrr]
    rfl
  obtain ⟨ds', hrun, hpres, hform⟩ := undoDrinks_spec rows db1.drinks hrows_nd hrows_z hsome
  obtain ⟨kpres, kform⟩ := undoKings_spec rows db1.kings hrows_nd hrows_z
  refine ⟨{ db1 with
      drinks := ds'
      kings := undoKings rows db1.kings
      transacts := db.transacts }, ?_, ?_, ?_, rfl⟩
  · simp only [undo_transaction, hentries, hrun, hdel]
  · intro p hp
    obtain ⟨r0, hr0, hfi⟩ :=
      gather_found db items [] infos p.1 hg (by simp [findInfo?]) ⟨p.2, by simpa using hp⟩
    have hmemI : (p.1, (⟨amountSum items p.1, r0.sales_price,
        r0.bottles_full, r0.bottles_empty⟩ : Info)) ∈ infos := findInfo?_mem _ _ _ hfi
    have hmemR : (⟨m + 1, aid, p.1, amountSum items p.1, -r0.sales_price, now⟩ : TransRow)
        ∈ rows := by
      rw [hrows]
      exact List.mem_map.2 ⟨_, hmemI, rfl⟩
    have h1 := hform _ hmemR
    have h2 := hfind1 _ hmemI
    dsimp only at h1 h2
    rw [h2] at h1
    rw [lookupDrink] at hr0
    rw [hr0] at h1
    have hnc : amountSum items p.1 ≤ r0.bottles_full := hnoclamp _ hmemI
    rw [Option.map_some', Option.map_some'] at h1
    rw [if_neg (by omega : ¬ r0.bottles_full - amountSum items p.1 < 0)] at h1
    show ds'.find? (fun r => r.did == p.1) = db.drinks.find? (fun r => r.did == p.1)
    rw [h1, hr0]
    have e1 : r0.bottles_full - amountSum items p.1 + amountSum items p.1
        = r0.bottles_full := by ring
    have e2 : r0.bottles_empty + amountSum items p.1 - amountSum items p.1
        = r0.bottles_empty := by ring
    rw [e1, e2]
  · intro p hp v hv
    obtain ⟨r0, hr0, hfi⟩ :=
      gather_found db items [] infos p.1 hg (by simp [findInfo?]) ⟨p.2, by simpa using hp⟩
    have hmemI : (p.1, (⟨amountSum items p.1, r0.sales_price,
        r0.bottles_full, r0.bottles_empty⟩ : Info)) ∈ infos := findInfo?_mem _ _ _ hfi
    have hmemR : (⟨m + 1, aid, p.1, amountSum items p.1, -r0.sales_price, now⟩ : TransRow)
        ∈ rows := by
      rw [hrows]
      exact List.mem_map.2 ⟨_, hmemI, rfl⟩
    have hup : findKing db1.kings aid p.1 = some (v + amountSum items p.1) := by
      rw [hk1]
      exact updateKings_find aid items db.kings p.1 v hv
    have h1 := kform _ hmemR
    dsimp only at h1
    rw [hup, Option.map_some'] at h1
    show findKing (undoKings rows db1.kings) aid p.1 = some v
    rw [h1]
    exact congrArg some (by omega)

theorem consume_undo_roundtrip_witness :
    ∃ db2, undo_transaction (consume_drinks baseDB 1 [(1, 2)] 3).2 2 = some db2 ∧
      (∀ p ∈ [((1 : Int), (2 : Int))], lookupDrink db2 p.1 = lookupDrink baseDB p.1) ∧
      (∀ p ∈ [((1 : Int), (2 : Int))], ∀ v : Int,
          findKing baseDB.kings 1 p.1 = some v → findKing db2.kings 1 p.1 = some v) ∧
      db2.transacts = baseDB.transacts :=
  consume_undo_roundtrip baseDB 1 [(1, 2)] 3 [(1, ⟨2, 100, 5, 15⟩)] 1
    (by decide) (by decide) (by decide) (by decide) (by decide)

end BimiBase
